import Mathlib

/-
Shallow embedding of the cppaikit FSM container
(src/include/cppaikit/fsm/FSM.hpp, namespace aikit::fsm).

Modelling choices:
* `Id` models the template parameter `TId` (identifiers with equality).
* `Obj` models the address of a heap-allocated state object
  (`TState*` / the `std::unique_ptr<TState>` stored in the map):
  callbacks dispatch on this pointer, and "same pointer" in the spec
  is equality of these tokens.
* The store `mStates : std::map<TId, std::unique_ptr<TState>>` is an
  association list from `Id` to `Obj`.  `std::map` keys are unique, so
  `mapErase` (which drops every pair with the given key) agrees with
  `std::map::erase(key)` on every list the FSM can build.
* The two `StateRef` slots hold `const TId* id` and `TState* state`;
  a slot is modelled as `Option (Id × Obj)` — `none` when cleared
  (`id == nullptr`), `some (id, obj)` when set.  In `removeState` the
  source compares the two slots' key *pointers*
  (`mCurrentState.id == mPreviousState.id`); both pointers point at
  keys of the same `std::map`, where keys are unique, so pointer
  equality coincides with value equality of the identifiers;
  the model compares the identifier values.
* Lifecycle callbacks (`onEnter`, `onExit`, `update`) are host code;
  each operation returns the list of callback invocations it performs,
  in order, tagged with the object (`Obj`) the virtual call dispatches
  on.
* A failed `assert(...)` halts the program before any mutation; an
  operation whose assertion fails is modelled as returning `none`.
  (`removeState` contains no assert and is total up to the asserts of
  the `transitionToPreviousState` call it may make internally.)
-/

namespace AikitFsm

/-- Identifier type (`TId`). -/
abbrev Id := Nat

/-- Identity of a stored state object (its address, `TState*`). -/
abbrev Obj := Nat

/-- A lifecycle callback invocation, tagged with the object it
dispatches on (`state->onEnter()`, `state->onExit()`,
`state->update(d)`). -/
inductive Event where
  | onEnter (o : Obj)
  | onExit (o : Obj)
  | update (o : Obj) (d : Int)
  deriving DecidableEq, Repr

/-- Lookup in the state store: `mStates.find(id)`, returning the mapped
object when the key is present. -/
def mapFind (m : List (Id × Obj)) (k : Id) : Option Obj :=
  match m with
  | [] => none
  | (k', v) :: rest => if k' = k then some v else mapFind rest k

/-- Insertion into the state store: `mStates.try_emplace(id, ...)` —
does nothing when the key is already present, inserts otherwise. -/
def tryEmplace (m : List (Id × Obj)) (k : Id) (v : Obj) : List (Id × Obj) :=
  match mapFind m k with
  | some _ => m
  | none => m ++ [(k, v)]

/-- Removal from the state store: `mStates.erase(id)`.  `std::map` keys
are unique, so removing every pair with key `k` equals removing the one
entry for `k` when present. -/
def mapErase (m : List (Id × Obj)) (k : Id) : List (Id × Obj) :=
  m.filter (fun p => decide (p.1 ≠ k))

/-- The FSM object: the owned state store and the two non-owning
reference slots (`StateRef mPreviousState`, `StateRef mCurrentState`). -/
structure FSM where
  mStates : List (Id × Obj)
  mPreviousState : Option (Id × Obj)
  mCurrentState : Option (Id × Obj)
  deriving DecidableEq, Repr

/-- A freshly constructed FSM: empty store, both slots cleared. -/
def initFSM : FSM := ⟨[], none, none⟩

/-- `FSM::addState(id, state)`: `try_emplace` the new state into the
store.  `obj` is the address of the fresh copy `std::make_unique`
produces.  Invokes no callbacks. -/
def addState (fsm : FSM) (id : Id) (obj : Obj) : FSM × List Event :=
  ({ fsm with mStates := tryEmplace fsm.mStates id obj }, [])

/-- `FSM::transitionTo(id)`: asserts the id is found (else the program
halts — modelled `none`); if a current state is set, calls `onExit` on
it and copies it into previous; sets current to the looked-up entry and
calls `onEnter` on it. -/
def transitionTo (fsm : FSM) (id : Id) : Option (FSM × List Event) :=
  match mapFind fsm.mStates id with
  | none => none
  | some obj =>
    match fsm.mCurrentState with
    | some (cid, cobj) =>
      some ({ mStates := fsm.mStates
              mPreviousState := some (cid, cobj)
              mCurrentState := some (id, obj) },
            [Event.onExit cobj, Event.onEnter obj])
    | none =>
      some ({ mStates := fsm.mStates
              mPreviousState := fsm.mPreviousState
              mCurrentState := some (id, obj) },
            [Event.onEnter obj])

/-- `FSM::transitionToPreviousState()`: asserts a previous state is set
(else the program halts — modelled `none`), then delegates to
`transitionTo(mPreviousState.id)`. -/
def transitionToPreviousState (fsm : FSM) : Option (FSM × List Event) :=
  match fsm.mPreviousState with
  | none => none
  | some (pid, _) => transitionTo fsm pid

/-- `FSM::setCurrentState(id)`: asserts the id is found (else the
program halts — modelled `none`); if a current state is set, copies it
into previous; sets current to the looked-up entry.  Invokes no
callbacks. -/
def setCurrentState (fsm : FSM) (id : Id) : Option (FSM × List Event) :=
  match mapFind fsm.mStates id with
  | none => none
  | some obj =>
    match fsm.mCurrentState with
    | some (cid, cobj) =>
      some ({ mStates := fsm.mStates
              mPreviousState := some (cid, cobj)
              mCurrentState := some (id, obj) }, [])
    | none =>
      some ({ mStates := fsm.mStates
              mPreviousState := fsm.mPreviousState
              mCurrentState := some (id, obj) }, [])

/-- `FSM::update(updateData)`: asserts a current state is set (else the
program halts — modelled `none`), then forwards the data to the current
state's `update` hook. -/
def update (fsm : FSM) (d : Int) : Option (FSM × List Event) :=
  match fsm.mCurrentState with
  | none => none
  | some (_, cobj) => some (fsm, [Event.update cobj d])

/-- The slot-resolution statements of `FSM::removeState(id)` (the
`if`/`else if` chain that runs before the final `mStates.erase(id)`):
if current is set with this id, resolve the slots (three sub-cases on
the previous slot); else if previous is set with this id, clear it. -/
def removeStateSlots (fsm : FSM) (id : Id) : Option (FSM × List Event) :=
  match fsm.mCurrentState, fsm.mPreviousState with
  | some (cid, cobj), some (pid, _pobj) =>
    if cid = id then
      if cid = pid then
        some ({ fsm with mCurrentState := none, mPreviousState := none },
              [Event.onExit cobj])
      else
        match transitionToPreviousState fsm with
        | none => none
        | some (fsm2, evs) =>
          some ({ fsm2 with mPreviousState := fsm2.mCurrentState }, evs)
    else if pid = id then
      some ({ fsm with mPreviousState := none }, [])
    else
      some (fsm, [])
  | some (cid, _cobj), none =>
    if cid = id then
      some ({ fsm with mCurrentState := none }, [])
    else
      some (fsm, [])
  | none, some (pid, _pobj) =>
    if pid = id then
      some ({ fsm with mPreviousState := none }, [])
    else
      some (fsm, [])
  | none, none => some (fsm, [])

/-- `FSM::removeState(id)`: run the slot-resolution statements above,
then erase `id` from the store and return whether it was present
(`mStates.erase(id) > 0`).  Note the branch for "current set with this
id, no previous" clears the current slot without invoking `onExit`.
The `none` result only arises from the assert inside the internal
`transitionToPreviousState` call. -/
def removeState (fsm : FSM) (id : Id) : Option (FSM × List Event × Bool) :=
  match removeStateSlots fsm id with
  | none => none
  | some (fsm2, evs) =>
    some ({ fsm2 with mStates := mapErase fsm2.mStates id },
          evs,
          (mapFind fsm2.mStates id).isSome)

/-- One externally driven operation on the FSM. -/
inductive Op where
  | add (id : Id) (obj : Obj)
  | setCur (id : Id)
  | transTo (id : Id)
  | transPrev
  | remove (id : Id)
  deriving DecidableEq, Repr

/-- Apply one operation; `none` when the operation fails an assertion. -/
def applyOp (fsm : FSM) : Op → Option (FSM × List Event)
  | Op.add id obj => some (addState fsm id obj)
  | Op.setCur id => setCurrentState fsm id
  | Op.transTo id => transitionTo fsm id
  | Op.transPrev => transitionToPreviousState fsm
  | Op.remove id => (removeState fsm id).map (fun r => (r.1, r.2.1))

/-- Run a sequence of operations from a given FSM; `none` when any
operation along the way fails an assertion. -/
def runOps (fsm : FSM) : List Op → Option FSM
  | [] => some fsm
  | op :: rest =>
    match applyOp fsm op with
    | none => none
    | some (fsm2, _) => runOps fsm2 rest

/-- A reference slot is valid for a store when it is either cleared or
refers (identifier and object) to an entry present in the store. -/
def SlotValid (m : List (Id × Obj)) : Option (Id × Obj) → Prop
  | none => True
  | some (i, o) => mapFind m i = some o

/-- Both reference slots of the FSM refer only to entries present in
its store. -/
def SlotsValid (fsm : FSM) : Prop :=
  SlotValid fsm.mStates fsm.mCurrentState ∧ SlotValid fsm.mStates fsm.mPreviousState

/-- Lookup is unaffected by appending entries when the key is already
present. -/
theorem mapFind_append_left {m : List (Id × Obj)} {k : Id} {v : Obj}
    (l : List (Id × Obj)) (h : mapFind m k = some v) :
    mapFind (m ++ l) k = some v := by
  induction m with
  | nil => simp [mapFind] at h
  | cons p rest ih =>
    obtain ⟨k', v'⟩ := p
    by_cases hk : k' = k
    · simpa [mapFind, hk] using h
    · simp only [List.cons_append, mapFind, if_neg hk] at h ⊢
      exact ih h

/-- A successful lookup survives a later `try_emplace` with any key. -/
theorem mapFind_tryEmplace_of_some {m : List (Id × Obj)} {k : Id} {v : Obj}
    (k' : Id) (v' : Obj) (h : mapFind m k = some v) :
    mapFind (tryEmplace m k' v') k = some v := by
  unfold tryEmplace
  split
  · exact h
  · exact mapFind_append_left _ h

/-- Unfolding of `mapErase` on a cons cell. -/
theorem mapErase_cons (a : Id) (b : Obj) (rest : List (Id × Obj)) (k : Id) :
    mapErase ((a, b) :: rest) k =
      if a = k then mapErase rest k else (a, b) :: mapErase rest k := by
  by_cases ha : a = k <;> simp [mapErase, List.filter, ha]

/-- After erasing a key, looking it up finds nothing. -/
theorem mapFind_erase_self (m : List (Id × Obj)) (k : Id) :
    mapFind (mapErase m k) k = none := by
  induction m with
  | nil => rfl
  | cons p rest ih =>
    obtain ⟨a, b⟩ := p
    rw [mapErase_cons]
    by_cases ha : a = k
    · simpa [ha] using ih
    · simpa [mapFind, ha] using ih

/-- Erasing one key leaves lookups of any other key unchanged. -/
theorem mapFind_erase_ne {k k' : Id} (h : k ≠ k') (m : List (Id × Obj)) :
    mapFind (mapErase m k') k = mapFind m k := by
  induction m with
  | nil => rfl
  | cons p rest ih =>
    obtain ⟨a, b⟩ := p
    rw [mapErase_cons]
    by_cases ha : a = k'
    · have hak : a ≠ k := fun hh => h (hh.symm.trans ha)
      rw [if_pos ha, ih]
      simp [mapFind, hak]
    · rw [if_neg ha]
      by_cases hak : a = k <;> simp [mapFind, hak, ih]

/-- Slot validity is preserved by any `try_emplace` on the store. -/
theorem slotValid_tryEmplace {m : List (Id × Obj)} {r : Option (Id × Obj)}
    (k : Id) (v : Obj) (h : SlotValid m r) : SlotValid (tryEmplace m k v) r := by
  cases r with
  | none => trivial
  | some p =>
    obtain ⟨i, o⟩ := p
    exact mapFind_tryEmplace_of_some k v h

/-- A slot that refers to a key other than the erased one stays valid. -/
theorem slotValid_erase {m : List (Id × Obj)} {i : Id} {o : Obj} (k : Id)
    (hne : i ≠ k) (h : SlotValid m (some (i, o))) :
    SlotValid (mapErase m k) (some (i, o)) := by
  show mapFind (mapErase m k) i = some o
  rw [mapFind_erase_ne hne]
  exact h

/-- A successful `transitionTo` keeps the store and leaves both slots
valid. -/
theorem transitionTo_preservesValid {fsm : FSM} {id : Id} {fsm2 : FSM}
    {evs : List Event} (hv : SlotsValid fsm)
    (h : transitionTo fsm id = some (fsm2, evs)) :
    SlotsValid fsm2 ∧ fsm2.mStates = fsm.mStates := by
  obtain ⟨hc, hp⟩ := hv
  unfold transitionTo at h
  cases hfind : mapFind fsm.mStates id with
  | none => rw [hfind] at h; exact absurd h (by simp)
  | some obj =>
    rw [hfind] at h
    cases hcur : fsm.mCurrentState with
    | none =>
      rw [hcur] at h
      simp only [Option.some.injEq, Prod.mk.injEq] at h
      obtain ⟨h1, -⟩ := h
      subst h1
      exact ⟨⟨hfind, hp⟩, rfl⟩
    | some c =>
      obtain ⟨cid, cobj⟩ := c
      rw [hcur] at h
      simp only [Option.some.injEq, Prod.mk.injEq] at h
      obtain ⟨h1, -⟩ := h
      subst h1
      rw [hcur] at hc
      exact ⟨⟨hfind, hc⟩, rfl⟩

/-- A successful `setCurrentState` keeps the store and leaves both slots
valid. -/
theorem setCurrentState_preservesValid {fsm : FSM} {id : Id} {fsm2 : FSM}
    {evs : List Event} (hv : SlotsValid fsm)
    (h : setCurrentState fsm id = some (fsm2, evs)) :
    SlotsValid fsm2 ∧ fsm2.mStates = fsm.mStates := by
  obtain ⟨hc, hp⟩ := hv
  unfold setCurrentState at h
  cases hfind : mapFind fsm.mStates id with
  | none => rw [hfind] at h; exact absurd h (by simp)
  | some obj =>
    rw [hfind] at h
    cases hcur : fsm.mCurrentState with
    | none =>
      rw [hcur] at h
      simp only [Option.some.injEq, Prod.mk.injEq] at h
      obtain ⟨h1, -⟩ := h
      subst h1
      exact ⟨⟨hfind, hp⟩, rfl⟩
    | some c =>
      obtain ⟨cid, cobj⟩ := c
      rw [hcur] at h
      simp only [Option.some.injEq, Prod.mk.injEq] at h
      obtain ⟨h1, -⟩ := h
      subst h1
      rw [hcur] at hc
      exact ⟨⟨hfind, hc⟩, rfl⟩

/-- A successful `transitionToPreviousState` keeps the store and leaves
both slots valid. -/
theorem transitionToPrevious_preservesValid {fsm : FSM} {fsm2 : FSM}
    {evs : List Event} (hv : SlotsValid fsm)
    (h : transitionToPreviousState fsm = some (fsm2, evs)) :
    SlotsValid fsm2 ∧ fsm2.mStates = fsm.mStates := by
  unfold transitionToPreviousState at h
  cases hprev : fsm.mPreviousState with
  | none => rw [hprev] at h; exact absurd h (by simp)
  | some p =>
    obtain ⟨pid, pobj⟩ := p
    rw [hprev] at h
    exact transitionTo_preservesValid hv h

/-- Shape of a successful `transitionTo`: the id was found, the store
is kept, and the current slot now holds the looked-up entry. -/
theorem transitionTo_shape {fsm : FSM} {id : Id} {fsm2 : FSM}
    {evs : List Event} (h : transitionTo fsm id = some (fsm2, evs)) :
    ∃ obj, mapFind fsm.mStates id = some obj ∧
      fsm2.mStates = fsm.mStates ∧ fsm2.mCurrentState = some (id, obj) := by
  unfold transitionTo at h
  cases hfind : mapFind fsm.mStates id with
  | none => rw [hfind] at h; exact absurd h (by simp)
  | some obj =>
    rw [hfind] at h
    cases hcur : fsm.mCurrentState with
    | none =>
      rw [hcur] at h
      simp only [Option.some.injEq, Prod.mk.injEq] at h
      obtain ⟨h1, -⟩ := h
      subst h1
      exact ⟨obj, rfl, rfl, rfl⟩
    | some c =>
      obtain ⟨cid, cobj⟩ := c
      rw [hcur] at h
      simp only [Option.some.injEq, Prod.mk.injEq] at h
      obtain ⟨h1, -⟩ := h
      subst h1
      exact ⟨obj, rfl, rfl, rfl⟩

/-- When the slot-resolution part of removal succeeds, the store is
unchanged and both resulting slots stay valid even after `id` is erased
from the store. -/
theorem removeStateSlots_preservesValid {fsm : FSM} {id : Id} {fsm2 : FSM}
    {evs : List Event} (hv : SlotsValid fsm)
    (h : removeStateSlots fsm id = some (fsm2, evs)) :
    fsm2.mStates = fsm.mStates ∧
    SlotValid (mapErase fsm2.mStates id) fsm2.mCurrentState ∧
    SlotValid (mapErase fsm2.mStates id) fsm2.mPreviousState := by
  obtain ⟨hc, hp⟩ := hv
  cases hcur : fsm.mCurrentState with
  | some c =>
    obtain ⟨cid, cobj⟩ := c
    rw [hcur] at hc
    cases hprev : fsm.mPreviousState with
    | some p =>
      obtain ⟨pid, pobj⟩ := p
      rw [hprev] at hp
      simp only [removeStateSlots, hcur, hprev] at h
      by_cases h1 : cid = id
      · rw [if_pos h1] at h
        by_cases h2 : cid = pid
        · rw [if_pos h2] at h
          simp only [Option.some.injEq, Prod.mk.injEq] at h
          obtain ⟨h3, -⟩ := h
          subst h3
          exact ⟨rfl, trivial, trivial⟩
        · rw [if_neg h2] at h
          cases htp : transitionToPreviousState fsm with
          | none => rw [htp] at h; exact absurd h (by simp)
          | some r =>
            obtain ⟨fsmT, evsT⟩ := r
            rw [htp] at h
            simp only [Option.some.injEq, Prod.mk.injEq] at h
            obtain ⟨h3, -⟩ := h
            subst h3
            unfold transitionToPreviousState at htp
            rw [hprev] at htp
            obtain ⟨obj, hfind, hst, hcurT⟩ := transitionTo_shape htp
            have hpid : pid ≠ id := fun hh => h2 (h1.trans hh.symm)
            refine ⟨hst, ?_, ?_⟩ <;>
            · show SlotValid (mapErase fsmT.mStates id) fsmT.mCurrentState
              rw [hcurT]
              show mapFind (mapErase fsmT.mStates id) pid = some obj
              rw [hst, mapFind_erase_ne hpid]
              exact hfind
      · rw [if_neg h1] at h
        by_cases h3 : pid = id
        · rw [if_pos h3] at h
          simp only [Option.some.injEq, Prod.mk.injEq] at h
          obtain ⟨h4, -⟩ := h
          subst h4
          refine ⟨rfl, ?_, trivial⟩
          exact slotValid_erase id h1 hc
        · rw [if_neg h3] at h
          simp only [Option.some.injEq, Prod.mk.injEq] at h
          obtain ⟨h4, -⟩ := h
          subst h4
          refine ⟨rfl, ?_, ?_⟩
          · rw [hcur]
            exact slotValid_erase id h1 hc
          · rw [hprev]
            exact slotValid_erase id h3 hp
    | none =>
      simp only [removeStateSlots, hcur, hprev] at h
      by_cases h1 : cid = id
      · rw [if_pos h1] at h
        simp only [Option.some.injEq, Prod.mk.injEq] at h
        obtain ⟨h2, -⟩ := h
        subst h2
        exact ⟨rfl, trivial, trivial⟩
      · rw [if_neg h1] at h
        simp only [Option.some.injEq, Prod.mk.injEq] at h
        obtain ⟨h2, -⟩ := h
        subst h2
        refine ⟨rfl, ?_, ?_⟩
        · rw [hcur]
          exact slotValid_erase id h1 hc
        · rw [hprev]
          trivial
  | none =>
    cases hprev : fsm.mPreviousState with
    | some p =>
      obtain ⟨pid, pobj⟩ := p
      rw [hprev] at hp
      simp only [removeStateSlots, hcur, hprev] at h
      by_cases h1 : pid = id
      · rw [if_pos h1] at h
        simp only [Option.some.injEq, Prod.mk.injEq] at h
        obtain ⟨h2, -⟩ := h
        subst h2
        exact ⟨rfl, trivial, trivial⟩
      · rw [if_neg h1] at h
        simp only [Option.some.injEq, Prod.mk.injEq] at h
        obtain ⟨h2, -⟩ := h
        subst h2
        refine ⟨rfl, ?_, ?_⟩
        · rw [hcur]
          trivial
        · rw [hprev]
          exact slotValid_erase id h1 hp
    | none =>
      simp only [removeStateSlots, hcur, hprev] at h
      simp only [Option.some.injEq, Prod.mk.injEq] at h
      obtain ⟨h2, -⟩ := h
      subst h2
      refine ⟨rfl, ?_, ?_⟩
      · rw [hcur]
        trivial
      · rw [hprev]
        trivial

/-- A successful `removeState` leaves both slots valid. -/
theorem removeState_preservesValid {fsm : FSM} {id : Id} {fsm2 : FSM}
    {evs : List Event} {b : Bool} (hv : SlotsValid fsm)
    (h : removeState fsm id = some (fsm2, evs, b)) : SlotsValid fsm2 := by
  unfold removeState at h
  cases hs : removeStateSlots fsm id with
  | none => rw [hs] at h; exact absurd h (by simp)
  | some r =>
    obtain ⟨fsmS, evsS⟩ := r
    rw [hs] at h
    simp only [Option.some.injEq, Prod.mk.injEq] at h
    obtain ⟨h1, -⟩ := h
    subst h1
    obtain ⟨-, h2, h3⟩ := removeStateSlots_preservesValid hv hs
    exact ⟨h2, h3⟩

/-- Every successfully applied operation leaves both slots valid. -/
theorem applyOp_preservesValid {fsm : FSM} {op : Op} {fsm2 : FSM}
    {evs : List Event} (hv : SlotsValid fsm)
    (h : applyOp fsm op = some (fsm2, evs)) : SlotsValid fsm2 := by
  cases op with
  | add id obj =>
    simp only [applyOp, addState, Option.some.injEq, Prod.mk.injEq] at h
    obtain ⟨h1, -⟩ := h
    subst h1
    exact ⟨slotValid_tryEmplace id obj hv.1, slotValid_tryEmplace id obj hv.2⟩
  | setCur id => exact (setCurrentState_preservesValid hv h).1
  | transTo id => exact (transitionTo_preservesValid hv h).1
  | transPrev => exact (transitionToPrevious_preservesValid hv h).1
  | remove id =>
    simp only [applyOp] at h
    cases hrem : removeState fsm id with
    | none => rw [hrem] at h; exact absurd h (by simp)
    | some r =>
      obtain ⟨f, e, b⟩ := r
      rw [hrem] at h
      simp only [Option.map_some', Option.some.injEq, Prod.mk.injEq] at h
      obtain ⟨h1, -⟩ := h
      subst h1
      exact removeState_preservesValid hv hrem

/-- Running any operation sequence from a slot-valid FSM yields a
slot-valid FSM. -/
theorem runOps_preservesValid (ops : List Op) :
    ∀ {fsm fsm2 : FSM}, SlotsValid fsm → runOps fsm ops = some fsm2 →
      SlotsValid fsm2 := by
  induction ops with
  | nil =>
    intro fsm fsm2 hv h
    simp only [runOps, Option.some.injEq] at h
    subst h
    exact hv
  | cons op rest ih =>
    intro fsm fsm2 hv h
    simp only [runOps] at h
    cases hap : applyOp fsm op with
    | none => rw [hap] at h; exact absurd h (by simp)
    | some r =>
      obtain ⟨f, e⟩ := r
      rw [hap] at h
      exact ih (applyOp_preservesValid hv hap) h

/-- C1: the claim says that for an FSM whose current slot holds a
registered state with identifier id and whose previous slot is empty,
removeState(id) invokes onExit on the current entry, then clears the
current slot only, erases id from the store, and returns true.
Evaluating the code at such a configuration (store holding entry 1
with object 10, current slot on it, previous slot empty) shows the
list of fired callbacks is empty: the source clears the current slot
WITHOUT invoking onExit, then erases the id and returns true — even
though the repository's own unit test for this scenario requires one
onExit call. -/
theorem C1_removeState_current_no_previous_eval :
    removeState ⟨[(1, 10)], none, some (1, 10)⟩ 1 =
      some (⟨[], none, none⟩, [], true) := by rfl

/-- C2: for all registered states A and B with A ≠ B, after
setCurrentState(A) followed by transitionTo(B), the fired callbacks are
exactly onExit on A's object followed by onEnter on B's object (so each
fires exactly once, in that order), the current slot holds B's entry
and the previous slot holds A's entry. -/
theorem C2_transition_ordering (fsm : FSM) (A B : Id) (objA objB : Obj)
    (hA : mapFind fsm.mStates A = some objA)
    (hB : mapFind fsm.mStates B = some objB)
    (_hAB : A ≠ B) :
    ∃ fsm1 fsm2 : FSM,
      setCurrentState fsm A = some (fsm1, []) ∧
      transitionTo fsm1 B =
        some (fsm2, [Event.onExit objA, Event.onEnter objB]) ∧
      fsm2.mCurrentState = some (B, objB) ∧
      fsm2.mPreviousState = some (A, objA) := by
  cases hcur : fsm.mCurrentState with
  | none =>
    refine ⟨⟨fsm.mStates, fsm.mPreviousState, some (A, objA)⟩,
            ⟨fsm.mStates, some (A, objA), some (B, objB)⟩, ?_, ?_, rfl, rfl⟩
    · simp [setCurrentState, hA, hcur]
    · simp [transitionTo, hB]
  | some c =>
    obtain ⟨cid, cobj⟩ := c
    refine ⟨⟨fsm.mStates, some (cid, cobj), some (A, objA)⟩,
            ⟨fsm.mStates, some (A, objA), some (B, objB)⟩, ?_, ?_, rfl, rfl⟩
    · simp [setCurrentState, hA, hcur]
    · simp [transitionTo, hB]

/-- C2 witness: the transition-ordering theorem instantiated at a
concrete two-state FSM. -/
theorem C2_transition_ordering_witness :
    ∃ fsm1 fsm2 : FSM,
      setCurrentState ⟨[(1, 10), (2, 20)], none, none⟩ 1 = some (fsm1, []) ∧
      transitionTo fsm1 2 =
        some (fsm2, [Event.onExit 10, Event.onEnter 20]) ∧
      fsm2.mCurrentState = some (2, 20) ∧
      fsm2.mPreviousState = some (1, 10) :=
  C2_transition_ordering ⟨[(1, 10), (2, 20)], none, none⟩ 1 2 10 20 rfl rfl
    (by decide)

/-- C3: for an FSM with current = A's entry and previous = B's entry,
A ≠ B and both registered, removeState(A) fires onExit on A's object
then onEnter on B's object (the transitionToPreviousState sequence),
overwrites previous with the new current so that current = previous =
B's entry (same identifier and object), erases A from the store (B's
entry survives unchanged), and returns true. -/
theorem C3_remove_current_promotes_previous (fsm : FSM) (A B : Id)
    (objA objB : Obj)
    (hA : mapFind fsm.mStates A = some objA)
    (hB : mapFind fsm.mStates B = some objB)
    (hcur : fsm.mCurrentState = some (A, objA))
    (hprev : fsm.mPreviousState = some (B, objB))
    (hAB : A ≠ B) :
    removeState fsm A =
      some (⟨mapErase fsm.mStates A, some (B, objB), some (B, objB)⟩,
            [Event.onExit objA, Event.onEnter objB], true) ∧
    mapFind (mapErase fsm.mStates A) A = none ∧
    mapFind (mapErase fsm.mStates A) B = some objB := by
  refine ⟨?_, mapFind_erase_self _ _, ?_⟩
  · simp [removeState, removeStateSlots, transitionToPreviousState,
      transitionTo, hcur, hprev, hA, hB, hAB]
  · rw [mapFind_erase_ne (fun hh => hAB hh.symm)]
    exact hB

/-- C3 witness: the removal-dedup theorem instantiated at a concrete
two-state FSM with current = state 1 and previous = state 2. -/
theorem C3_remove_current_promotes_previous_witness :
    removeState ⟨[(1, 10), (2, 20)], some (2, 20), some (1, 10)⟩ 1 =
      some (⟨mapErase [(1, 10), (2, 20)] 1, some (2, 20), some (2, 20)⟩,
            [Event.onExit 10, Event.onEnter 20], true) ∧
    mapFind (mapErase [(1, 10), (2, 20)] 1) 1 = none ∧
    mapFind (mapErase [(1, 10), (2, 20)] 1) 2 = some 20 :=
  C3_remove_current_promotes_previous
    ⟨[(1, 10), (2, 20)], some (2, 20), some (1, 10)⟩ 1 2 10 20
    rfl rfl rfl rfl (by decide)

/-- C4: for an FSM whose current and previous slots both hold the same
registered entry A, removeState(A) fires exactly one onExit on A's
object (and no onEnter), clears both slots, erases A from the store,
and returns true. -/
theorem C4_remove_current_equals_previous (fsm : FSM) (A : Id) (objA : Obj)
    (hA : mapFind fsm.mStates A = some objA)
    (hcur : fsm.mCurrentState = some (A, objA))
    (hprev : fsm.mPreviousState = some (A, objA)) :
    removeState fsm A =
      some (⟨mapErase fsm.mStates A, none, none⟩, [Event.onExit objA], true) ∧
    mapFind (mapErase fsm.mStates A) A = none := by
  refine ⟨?_, mapFind_erase_self _ _⟩
  simp [removeState, removeStateSlots, hcur, hprev, hA]

/-- C4 witness: the self-equal removal theorem instantiated at a
concrete FSM with current = previous = state 1. -/
theorem C4_remove_current_equals_previous_witness :
    removeState ⟨[(1, 10), (2, 20)], some (1, 10), some (1, 10)⟩ 1 =
      some (⟨mapErase [(1, 10), (2, 20)] 1, none, none⟩,
            [Event.onExit 10], true) ∧
    mapFind (mapErase [(1, 10), (2, 20)] 1) 1 = none :=
  C4_remove_current_equals_previous
    ⟨[(1, 10), (2, 20)], some (1, 10), some (1, 10)⟩ 1 10 rfl rfl rfl

/-- C5: the claim says transitionTo, setCurrentState, and removeState
with an unregistered identifier all leave the store, current, and
previous unchanged, fire no callbacks, and that removeState reports
failure.  Evaluating the code at an unregistered identifier shows
removeState indeed is a no-op returning false, but transitionTo and
setCurrentState fail their fatal assertion (modelled as the error
result) instead of returning normally — the strict policy, contradicting
the permissive behavior the repository's own unit tests require of these
two calls. -/
theorem C5_unknown_id_eval :
    transitionTo ⟨[(1, 10), (2, 20)], none, none⟩ 99 = none ∧
    setCurrentState ⟨[(1, 10), (2, 20)], none, none⟩ 99 = none ∧
    removeState ⟨[(1, 10), (2, 20)], none, none⟩ 99 =
      some (⟨[(1, 10), (2, 20)], none, none⟩, [], false) :=
  ⟨rfl, rfl, rfl⟩

/-- C6: starting from a freshly constructed FSM, after any completed
sequence of addState / setCurrentState / transitionTo /
transitionToPreviousState / removeState operations, whenever the current
or the previous slot is set, the entry (identifier and object) it refers
to is present in the store — no operation leaves a slot referring to a
removed entry. -/
theorem C6_no_dangling_slots (ops : List Op) (fsm : FSM)
    (h : runOps initFSM ops = some fsm) : SlotsValid fsm :=
  @runOps_preservesValid ops initFSM fsm ⟨trivial, trivial⟩ h

/-- C6 witness: the invariant theorem instantiated at a concrete
operation sequence that exercises a current-state removal. -/
theorem C6_no_dangling_slots_witness :
    SlotsValid ⟨[(1, 10)], some (1, 10), some (1, 10)⟩ :=
  C6_no_dangling_slots
    [Op.add 1 10, Op.add 2 20, Op.setCur 1, Op.transTo 2, Op.remove 2]
    ⟨[(1, 10)], some (1, 10), some (1, 10)⟩ rfl

/-- C7: transitionToPreviousState fails as a no-op (the
NoPreviousState assertion, modelled as the error result) when the
previous slot is empty; when the previous slot is set it delegates to
transitionTo on the previous slot's identifier, so that afterward the
current slot holds the old previous entry and the previous slot holds
the old current entry — current and previous are swapped. -/
theorem C7_transitionToPrevious_swaps (fsm : FSM) :
    (fsm.mPreviousState = none → transitionToPreviousState fsm = none) ∧
    (∀ (P C : Id) (pobj cobj : Obj),
      fsm.mPreviousState = some (P, pobj) →
      fsm.mCurrentState = some (C, cobj) →
      mapFind fsm.mStates P = some pobj →
      transitionToPreviousState fsm =
        some (⟨fsm.mStates, some (C, cobj), some (P, pobj)⟩,
              [Event.onExit cobj, Event.onEnter pobj])) := by
  constructor
  · intro h
    simp [transitionToPreviousState, h]
  · intro P C pobj cobj hp hc hfind
    simp [transitionToPreviousState, transitionTo, hp, hc, hfind]

/-- C7 witness: the swap theorem instantiated at a concrete FSM with
current = state 2 and previous = state 1. -/
theorem C7_transitionToPrevious_swaps_witness :
    transitionToPreviousState ⟨[(1, 10), (2, 20)], some (1, 10), some (2, 20)⟩ =
      some (⟨[(1, 10), (2, 20)], some (2, 20), some (1, 10)⟩,
            [Event.onExit 20, Event.onEnter 10]) :=
  (C7_transitionToPrevious_swaps
      ⟨[(1, 10), (2, 20)], some (1, 10), some (2, 20)⟩).2 1 2 10 20 rfl rfl rfl

/-- C8: for a registered identifier id, setCurrentState(id) fires no
callback at all (onEnter, onExit or update), keeps the store unchanged,
sets the current slot to the entry registered under id, and — when the
current slot was set — copies the old current into the previous slot. -/
theorem C8_setCurrentState_silent (fsm : FSM) (id : Id) (obj : Obj)
    (h : mapFind fsm.mStates id = some obj) :
    ∃ fsm2 : FSM,
      setCurrentState fsm id = some (fsm2, []) ∧
      fsm2.mStates = fsm.mStates ∧
      fsm2.mCurrentState = some (id, obj) ∧
      (∀ c : Id × Obj, fsm.mCurrentState = some c →
        fsm2.mPreviousState = some c) := by
  cases hcur : fsm.mCurrentState with
  | none =>
    refine ⟨⟨fsm.mStates, fsm.mPreviousState, some (id, obj)⟩, ?_, rfl, rfl, ?_⟩
    · simp [setCurrentState, h, hcur]
    · intro c hc
      exact Option.noConfusion hc
  | some c =>
    obtain ⟨cid, cobj⟩ := c
    refine ⟨⟨fsm.mStates, some (cid, cobj), some (id, obj)⟩, ?_, rfl, rfl, ?_⟩
    · simp [setCurrentState, h, hcur]
    · intro c' hc'
      exact hc'

/-- C8 witness: the silent-assignment theorem instantiated at a
concrete FSM whose current slot is set. -/
theorem C8_setCurrentState_silent_witness :
    ∃ fsm2 : FSM,
      setCurrentState ⟨[(1, 10), (2, 20)], none, some (2, 20)⟩ 1 =
        some (fsm2, []) ∧
      fsm2.mStates = (FSM.mk [(1, 10), (2, 20)] none (some (2, 20))).mStates ∧
      fsm2.mCurrentState = some (1, 10) ∧
      (∀ c : Id × Obj,
        (FSM.mk [(1, 10), (2, 20)] none (some (2, 20))).mCurrentState = some c →
        fsm2.mPreviousState = some c) :=
  C8_setCurrentState_silent (FSM.mk [(1, 10), (2, 20)] none (some (2, 20)))
    1 10 rfl

/-- C9: transitionTo(A) while the current slot already holds registered
state A fires exactly onExit on A's object then onEnter on A's object,
and afterward previous = current = A's entry (same identifier and same
object). -/
theorem C9_self_transition (fsm : FSM) (A : Id) (objA : Obj)
    (hA : mapFind fsm.mStates A = some objA)
    (hcur : fsm.mCurrentState = some (A, objA)) :
    transitionTo fsm A =
      some (⟨fsm.mStates, some (A, objA), some (A, objA)⟩,
            [Event.onExit objA, Event.onEnter objA]) := by
  simp [transitionTo, hA, hcur]

/-- C9 witness: the self-transition theorem instantiated at a concrete
one-state FSM. -/
theorem C9_self_transition_witness :
    transitionTo ⟨[(1, 10)], none, some (1, 10)⟩ 1 =
      some (⟨[(1, 10)], some (1, 10), some (1, 10)⟩,
            [Event.onExit 10, Event.onEnter 10]) :=
  C9_self_transition ⟨[(1, 10)], none, some (1, 10)⟩ 1 10 rfl rfl

/-- C10: addState with an identifier already present in the store is a
no-op: the FSM (store size and the entry registered under the id
included) is unchanged, the incoming state is discarded, and no
callback fires. -/
theorem C10_addState_duplicate_noop (fsm : FSM) (id : Id) (obj newObj : Obj)
    (h : mapFind fsm.mStates id = some obj) :
    addState fsm id newObj = (fsm, []) := by
  simp [addState, tryEmplace, h]

/-- C10 witness: the duplicate-add theorem instantiated at a concrete
one-state FSM. -/
theorem C10_addState_duplicate_noop_witness :
    addState ⟨[(1, 10)], none, none⟩ 1 99 = (⟨[(1, 10)], none, none⟩, []) :=
  C10_addState_duplicate_noop ⟨[(1, 10)], none, none⟩ 1 10 99 rfl

end AikitFsm
